import Mathlib

/-!
Shallow embedding of the QuakeSense risk-zone core
(`src/prediction_service.py`) and proofs about it.

Floating-point values are modelled as rationals, timestamps as integer
day counts (the code only ever compares `timedelta.days` against whole
days).  A field that can be `None` at the Python level is an `Option`.
The SQLAlchemy session is modelled explicitly: `committed` is the
durable zone table, `pending` is the zone set as seen through the open
session (mutated by `RiskZone.query.delete()` / `db.session.add`,
synchronised by `commit`, restored by `rollback`).
-/

deriving instance DecidableEq for Except

/-- An earthquake event row (`models.Earthquake`) as the prediction
service sees it: coordinates, magnitude and depth may be `None` at the
Python level, `region` is a (possibly empty) string, `timestamp` is the
event time in whole days. -/
structure Earthquake where
  latitude : Option ℚ
  longitude : Option ℚ
  magnitude : Option ℚ
  depth : Option ℚ
  region : String
  timestamp : ℤ
deriving Repr, DecidableEq

/-- A risk-zone row (`models.RiskZone`). -/
structure RiskZone where
  latitude : ℚ
  longitude : ℚ
  risk_level : ℚ
  region_name : String
  earthquake_count : ℕ
  last_updated : ℤ
deriving Repr, DecidableEq

/-- Python `max` over a list of rationals (the guarded uses are on
non-empty lists, so the default for `[]` is never reached). -/
def pyMax : List ℚ → ℚ
  | [] => 0
  | x :: xs => xs.foldl max x

/-- The magnitude values the scorer keeps:
`[eq.magnitude for eq in earthquakes if eq.magnitude]`.  Python
truthiness drops both `None` and `0.0`. -/
def truthyMagnitudes (earthquakes : List Earthquake) : List ℚ :=
  earthquakes.filterMap fun eq =>
    match eq.magnitude with
    | some m => if m = 0 then none else some m
    | none => none

/-- The depth values the scorer keeps:
`[eq.depth for eq in earthquakes if eq.depth is not None]`. -/
def presentDepths (earthquakes : List Earthquake) : List ℚ :=
  earthquakes.filterMap fun eq => eq.depth

/-- Frequency factor: `min((len(earthquakes)/12.0)/10.0, 1.0)`. -/
def frequency_score (earthquakes : List Earthquake) : ℚ :=
  min (((earthquakes.length : ℚ) / 12) / 10) 1

/-- Magnitude factor: mean of the kept magnitudes mapped by
`(avg - 2)/6`, capped at 1 then floored at 0, multiplied by 1.5 when
the kept maximum is ≥ 6; `0.0` when no magnitude is kept. -/
def magnitude_score (earthquakes : List Earthquake) : ℚ :=
  let magnitudes := truthyMagnitudes earthquakes
  if magnitudes = [] then 0
  else
    let avg_magnitude := magnitudes.sum / (magnitudes.length : ℚ)
    let max_magnitude := pyMax magnitudes
    let ms := min ((avg_magnitude - 2) / 6) 1
    let ms := max ms 0
    if 6 ≤ max_magnitude then ms * 1.5 else ms

/-- Recency factor: fraction of the cell's events with
`(now - eq.timestamp).days <= 90`. -/
def recency_score (now : ℤ) (earthquakes : List Earthquake) : ℚ :=
  ((earthquakes.filter fun eq => decide (now - eq.timestamp ≤ 90)).length : ℚ) /
    (earthquakes.length : ℚ)

/-- Depth factor: `max(0, (70 - avg_depth)/70)` when the mean of the
present depths is positive, the fixed fallback `0.5` when the mean is
≤ 0 or no depth is present. -/
def depth_score (earthquakes : List Earthquake) : ℚ :=
  let depths := presentDepths earthquakes
  if depths = [] then 1/2
  else
    let avg_depth := depths.sum / (depths.length : ℚ)
    if 0 < avg_depth then max 0 ((70 - avg_depth) / 70) else 1/2

/-- `PredictionService._calculate_risk_level`: weighted sum of the four
factors, capped at 1. -/
def _calculate_risk_level (now : ℤ) (earthquakes : List Earthquake) : ℚ :=
  if earthquakes = [] then 0
  else
    min (frequency_score earthquakes * 0.3 +
         magnitude_score earthquakes * 0.4 +
         recency_score now earthquakes * 0.2 +
         depth_score earthquakes * 0.1) 1

/-- One application of the flooring map:
`math.floor(x / grid_size) * grid_size`. -/
def floorCell (grid_size x : ℚ) : ℚ :=
  (⌊x / grid_size⌋ : ℚ) * grid_size

/-- Grid cell key of one event.  Accessing a `None` coordinate raises a
`TypeError` in Python, modelled as the error branch. -/
def cellKey (grid_size : ℚ) (eq : Earthquake) : Except String (ℚ × ℚ) :=
  match eq.latitude, eq.longitude with
  | some la, some lo => Except.ok (floorCell grid_size la, floorCell grid_size lo)
  | _, _ => Except.error "TypeError"

/-- Append `eq` under key `k` in an insertion-ordered association list
(the behaviour of `defaultdict(list)` plus `append`). -/
def insertGroup (k : ℚ × ℚ) (eq : Earthquake) :
    List ((ℚ × ℚ) × List Earthquake) → List ((ℚ × ℚ) × List Earthquake)
  | [] => [(k, [eq])]
  | (k2, es) :: rest =>
      if k2 = k then (k2, es ++ [eq]) :: rest else (k2, es) :: insertGroup k eq rest

/-- The grouping loop of `update_risk_zones` (lines 42–47): processes
events in order, stopping at the first event whose coordinates are
missing, exactly as the Python `for` loop would. -/
def groupEventsAux (grid_size : ℚ) (acc : List ((ℚ × ℚ) × List Earthquake)) :
    List Earthquake → Except String (List ((ℚ × ℚ) × List Earthquake))
  | [] => Except.ok acc
  | eq :: rest =>
      match cellKey grid_size eq with
      | Except.error e => Except.error e
      | Except.ok k => groupEventsAux grid_size (insertGroup k eq acc) rest

/-- Partition events into grid cells, keyed in first-occurrence order. -/
def groupEvents (grid_size : ℚ) (events : List Earthquake) :
    Except String (List ((ℚ × ℚ) × List Earthquake)) :=
  groupEventsAux grid_size [] events

/-- Bump the count of `r` in an insertion-ordered association list
(`defaultdict(int)` increment). -/
def bumpRegion (r : String) : List (String × ℕ) → List (String × ℕ)
  | [] => [(r, 1)]
  | (r2, c) :: rest =>
      if r2 = r then (r2, c + 1) :: rest else (r2, c) :: bumpRegion r rest

/-- The `region_counts` dictionary built by
`_get_representative_region`: only truthy (non-empty) regions are
counted, keys in first-occurrence order. -/
def regionCounts (earthquakes : List Earthquake) : List (String × ℕ) :=
  earthquakes.foldl (fun acc eq => if eq.region = "" then acc else bumpRegion eq.region acc) []

/-- Python `max(items, key=lambda x: x[1])` on a non-empty list: keeps
the current best and replaces it only on a strictly greater count, so
it returns the first maximum in iteration order. -/
def firstMaxByCount (p : String × ℕ) (rest : List (String × ℕ)) : String × ℕ :=
  rest.foldl (fun best q => if best.2 < q.2 then q else best) p

/-- `PredictionService._get_representative_region`. -/
def _get_representative_region (earthquakes : List Earthquake) : String :=
  match regionCounts earthquakes with
  | [] => "Unknown Region"
  | p :: rest => (firstMaxByCount p rest).1

/-- The zone built from one grid cell when both thresholds pass
(lines 51–77): skip cells with fewer than 3 events, emit only when the
risk level is strictly above 0.3, centre the zone in the cell and
record the cell's event count. -/
def zoneOfCell (grid_size : ℚ) (now : ℤ) (cell : (ℚ × ℚ) × List Earthquake) :
    Option RiskZone :=
  if cell.2.length < 3 then none
  else if 0.3 < _calculate_risk_level now cell.2 then
    some { latitude := cell.1.1 + grid_size / 2
           longitude := cell.1.2 + grid_size / 2
           risk_level := _calculate_risk_level now cell.2
           region_name := _get_representative_region cell.2
           earthquake_count := cell.2.length
           last_updated := now }
  else none

/-- All zones appended by the cell loop, in cell iteration order. -/
def zonesFor (grid_size : ℚ) (now : ℤ) (cells : List ((ℚ × ℚ) × List Earthquake)) :
    List RiskZone :=
  cells.filterMap (zoneOfCell grid_size now)

/-- The events the 365-day lookback query returns
(`Earthquake.timestamp >= cutoff_date` with `cutoff_date = now - 365`
days). -/
def windowEvents (now : ℤ) (events : List Earthquake) : List Earthquake :=
  events.filter fun eq => decide (now - 365 ≤ eq.timestamp)

/-- The zone store as seen by the materializer: `committed` is the
durable table, `pending` is the zone set visible through the open
session. -/
structure StoreState where
  committed : List RiskZone
  pending : List RiskZone
deriving Repr, DecidableEq

/-- `PredictionService.update_risk_zones`, over a store whose committed
zone table is `zones0` (the session starts in sync with it).
`commitFails` injects a backing-store failure at `db.session.commit()`;
any exception is caught by the run-level handler, which rolls the
session back and re-raises. -/
def update_risk_zones (grid_size : ℚ) (now : ℤ) (events : List Earthquake)
    (zones0 : List RiskZone) (commitFails : Bool) : Except String ℕ × StoreState :=
  -- line 27: RiskZone.query.delete() — the session now sees no zones
  let earthquakes := windowEvents now events
  if earthquakes = [] then
    -- lines 35–37: return 0 with the delete still pending, no commit, no rollback
    (Except.ok 0, { committed := zones0, pending := [] })
  else
    match groupEvents grid_size earthquakes with
    | Except.error e =>
        -- lines 83–86: except — rollback and re-raise
        (Except.error e, { committed := zones0, pending := zones0 })
    | Except.ok grid_cells =>
        let newZones := zonesFor grid_size now grid_cells
        if commitFails then
          (Except.error "StoreFailure", { committed := zones0, pending := zones0 })
        else
          -- line 79: db.session.commit()
          (Except.ok newZones.length, { committed := newZones, pending := newZones })

/-- Result of `predict_next_earthquake_probability`
(`error` and `recent_activity` keys elided: the success dictionary
always carries these three). -/
structure Prediction where
  probability : ℚ
  confidence : String
  based_on_events : ℕ
deriving Repr, DecidableEq

/-- Round to the nearest integer, ties to even — the behaviour of
Python's `round`. -/
def roundHalfEven (x : ℚ) : ℤ :=
  if x - ⌊x⌋ < 1/2 then ⌊x⌋
  else if 1/2 < x - ⌊x⌋ then ⌊x⌋ + 1
  else if 2 ∣ ⌊x⌋ then ⌊x⌋ else ⌊x⌋ + 1

/-- Python `round(x, 3)`. -/
def roundTo3 (x : ℚ) : ℚ := (roundHalfEven (x * 1000) : ℚ) / 1000

/-- Whether an event falls in the query box of
`predict_next_earthquake_probability`; a SQL comparison against a NULL
coordinate is not satisfied. -/
def matchesQuery (latitude longitude radius_deg : ℚ) (eq : Earthquake) : Bool :=
  match eq.latitude, eq.longitude with
  | some la, some lo => decide (|la - latitude| ≤ radius_deg) &&
      decide (|lo - longitude| ≤ radius_deg)
  | _, _ => false

/-- `PredictionService.predict_next_earthquake_probability` over the
full event table. -/
def predict_next_earthquake_probability (now : ℤ) (latitude longitude : ℚ)
    (radius_km : ℚ) (events : List Earthquake) : Prediction :=
  let radius_deg := radius_km / 111
  let earthquakes := events.filter (matchesQuery latitude longitude radius_deg)
  if earthquakes.length < 5 then
    { probability := 0.1, confidence := "low", based_on_events := earthquakes.length }
  else
    let recent_earthquakes := earthquakes.filter fun eq => decide (now - eq.timestamp ≤ 30)
    let historical_frequency := (earthquakes.length : ℚ) / 365
    let recent_activity_boost := (recent_earthquakes.length : ℚ) * 0.1
    let probability := min (historical_frequency + recent_activity_boost) 1
    let confidence :=
      if 50 < earthquakes.length then "high"
      else if 20 < earthquakes.length then "medium"
      else "low"
    { probability := roundTo3 probability, confidence := confidence
      based_on_events := earthquakes.length }

/-! Concrete fixtures used by counterexamples and witnesses. -/

/-- An event with both coordinates present. -/
def mkEvent (la lo : ℚ) (m d : Option ℚ) (r : String) (ts : ℤ) : Earthquake :=
  { latitude := some la, longitude := some lo, magnitude := m, depth := d,
    region := r, timestamp := ts }

/-- A pre-existing risk zone. -/
def zoneX : RiskZone :=
  { latitude := 0, longitude := 0, risk_level := 1/2, region_name := "X",
    earthquake_count := 3, last_updated := 0 }

/-- A malformed event: its latitude is missing. -/
def badEvent : Earthquake :=
  { latitude := none, longitude := some 5, magnitude := some 5, depth := some 10,
    region := "A", timestamp := 990 }

/-! Helper lemmas. -/

/-- If the grouping loop finished without raising, every event it
processed had both coordinates. -/
theorem groupEventsAux_ok_mem {grid_size : ℚ} {acc : List ((ℚ × ℚ) × List Earthquake)}
    {es : List Earthquake} {cells : List ((ℚ × ℚ) × List Earthquake)}
    (h : groupEventsAux grid_size acc es = Except.ok cells) :
    ∀ eq ∈ es, ∃ k, cellKey grid_size eq = Except.ok k := by
  induction es generalizing acc with
  | nil => intro eq hmem; cases hmem
  | cons e rest ih =>
    intro eq hmem
    rw [groupEventsAux] at h
    cases hk : cellKey grid_size e with
    | error msg => rw [hk] at h; cases h
    | ok k =>
      rw [hk] at h
      rcases List.mem_cons.mp hmem with rfl | hmem2
      · exact ⟨k, hk⟩
      · exact ih h eq hmem2

/-- A missing coordinate makes `cellKey` raise. -/
theorem cellKey_error_of_missing {grid_size : ℚ} {eq : Earthquake}
    (h : eq.latitude = none ∨ eq.longitude = none) :
    cellKey grid_size eq = Except.error "TypeError" := by
  unfold cellKey
  rcases h with h | h
  · rw [h]
  · rw [h]; cases hla : eq.latitude <;> rfl

/-- C1: the claim says a run that finds zero in-window events performs no
mutation and leaves the pre-existing zone set unchanged.  The code
violates it: `RiskZone.query.delete()` is executed before the emptiness
check, and the zero-event path returns 0 with the uncommitted delete
still pending (no commit, no rollback), so the zone set seen through the
session is empty rather than the pre-existing one. -/
theorem C1_delete_pending_on_empty_window :
    (update_risk_zones 2 1000 [] [zoneX] false).1 = Except.ok 0 ∧
    (update_risk_zones 2 1000 [] [zoneX] false).2.committed = [zoneX] ∧
    (update_risk_zones 2 1000 [] [zoneX] false).2.pending = [] ∧
    (update_risk_zones 2 1000 [] [zoneX] false).2.pending ≠ [zoneX] := by
  refine ⟨rfl, rfl, rfl, ?_⟩
  decide

/-- C2: counterexample.  One cell holds three well-formed high-risk
events, then one malformed event (missing latitude) is encountered.
The claim says the run skips the offending event and still completes
with a zone count; in fact the run aborts: the exception reaches the
run-level handler, the session is rolled back, and the error is
re-raised, so no count is returned and no zone is stored. -/
theorem C2_malformed_event_aborts :
    (update_risk_zones 2 1000
        [mkEvent 0.5 0.5 (some 6.5) (some 10) "A" 995,
         mkEvent 0.6 0.6 (some 6.5) (some 10) "A" 996,
         mkEvent 0.7 0.7 (some 6.5) (some 10) "A" 997,
         badEvent] [zoneX] false).1 = Except.error "TypeError" ∧
    (update_risk_zones 2 1000
        [mkEvent 0.5 0.5 (some 6.5) (some 10) "A" 995,
         mkEvent 0.6 0.6 (some 6.5) (some 10) "A" 996,
         mkEvent 0.7 0.7 (some 6.5) (some 10) "A" 997,
         badEvent] [zoneX] false).2.committed = [zoneX] := by
  constructor <;> rfl

/-- C2 (amended): a malformed in-window event does not get skipped — it
aborts the whole run: the materializer returns the error and the
run-level handler has rolled the session back to the prior zone set. -/
theorem C2_amended_abort_on_malformed (grid_size : ℚ) (now : ℤ)
    (events : List Earthquake) (zones0 : List RiskZone) (commitFails : Bool)
    (eq : Earthquake) (hmem : eq ∈ windowEvents now events)
    (hbad : eq.latitude = none ∨ eq.longitude = none) :
    (∃ e, (update_risk_zones grid_size now events zones0 commitFails).1 = Except.error e) ∧
    (update_risk_zones grid_size now events zones0 commitFails).2.committed = zones0 ∧
    (update_risk_zones grid_size now events zones0 commitFails).2.pending = zones0 := by
  have hne : windowEvents now events ≠ [] := List.ne_nil_of_mem hmem
  unfold update_risk_zones
  rw [if_neg hne]
  cases hg : groupEvents grid_size (windowEvents now events) with
  | error e => exact ⟨⟨e, rfl⟩, rfl, rfl⟩
  | ok cells =>
    exfalso
    obtain ⟨k, hk⟩ := groupEventsAux_ok_mem hg eq hmem
    rw [cellKey_error_of_missing hbad] at hk
    cases hk

/-- C2 (amended) witness at a concrete input. -/
theorem C2_amended_abort_on_malformed_witness :
    (∃ e, (update_risk_zones 2 1000 [badEvent] [zoneX] false).1 = Except.error e) ∧
    (update_risk_zones 2 1000 [badEvent] [zoneX] false).2.committed = [zoneX] ∧
    (update_risk_zones 2 1000 [badEvent] [zoneX] false).2.pending = [zoneX] :=
  C2_amended_abort_on_malformed 2 1000 [badEvent] [zoneX] false badEvent
    (by decide) (Or.inl rfl)

/-- C3: the run is all-or-nothing.  On any raised failure the run-level
handler rolls the session back to the prior zone set and the error is
what the caller receives; on success the committed table is exactly the
full new zone set with the returned count.  (The zero-event path keeps
the prior table committed as well, so the committed table is never
empty-but-stale or partially populated.) -/
theorem C3_all_or_nothing (grid_size : ℚ) (now : ℤ) (events : List Earthquake)
    (zones0 : List RiskZone) (commitFails : Bool) :
    (∀ e, (update_risk_zones grid_size now events zones0 commitFails).1 = Except.error e →
       (update_risk_zones grid_size now events zones0 commitFails).2.committed = zones0 ∧
       (update_risk_zones grid_size now events zones0 commitFails).2.pending = zones0) ∧
    ((update_risk_zones grid_size now events zones0 commitFails).2.committed = zones0 ∨
     ∃ cells, groupEvents grid_size (windowEvents now events) = Except.ok cells ∧
       (update_risk_zones grid_size now events zones0 commitFails).1 =
         Except.ok (zonesFor grid_size now cells).length ∧
       (update_risk_zones grid_size now events zones0 commitFails).2.committed =
         zonesFor grid_size now cells ∧
       (update_risk_zones grid_size now events zones0 commitFails).2.pending =
         zonesFor grid_size now cells) := by
  unfold update_risk_zones
  by_cases hw : windowEvents now events = []
  · rw [if_pos hw]
    exact ⟨(fun e he => nomatch he), Or.inl rfl⟩
  · rw [if_neg hw]
    cases hg : groupEvents grid_size (windowEvents now events) with
    | error e => exact ⟨fun e2 he2 => ⟨rfl, rfl⟩, Or.inl rfl⟩
    | ok cells =>
      cases commitFails with
      | true => exact ⟨fun e2 he2 => ⟨rfl, rfl⟩, Or.inl rfl⟩
      | false => exact ⟨(fun e2 he2 => nomatch he2), Or.inr ⟨cells, rfl, rfl, rfl, rfl⟩⟩

/-- C3 witness at a concrete input: a run that fails (malformed event)
leaves the prior zone set committed and the session rolled back. -/
theorem C3_all_or_nothing_witness :
    (update_risk_zones 2 1000 [badEvent] [zoneX] false).2.committed = [zoneX] ∧
    (update_risk_zones 2 1000 [badEvent] [zoneX] false).2.pending = [zoneX] :=
  (C3_all_or_nothing 2 1000 [badEvent] [zoneX] false).1 "TypeError" rfl

/-- Re-applying the flooring map to an already floored coordinate is the
identity, for any non-zero grid size. -/
theorem floorCell_floorCell (grid_size : ℚ) (hg : grid_size ≠ 0) (x : ℚ) :
    floorCell grid_size (floorCell grid_size x) = floorCell grid_size x := by
  unfold floorCell
  rw [mul_div_cancel_right₀ _ hg, Int.floor_intCast]

/-- C7: every computed cell key is a fixed point of the flooring map in
both coordinates, and the partitioner is a pure function, so repeated
calls on the same input agree. -/
theorem C7_cell_key_fixed_point (grid_size : ℚ) (hg : 0 < grid_size)
    (eq : Earthquake) (k : ℚ × ℚ) (h : cellKey grid_size eq = Except.ok k) :
    floorCell grid_size k.1 = k.1 ∧ floorCell grid_size k.2 = k.2 ∧
    ∀ events : List Earthquake,
      groupEvents grid_size events = groupEvents grid_size events := by
  unfold cellKey at h
  cases hla : eq.latitude with
  | none => rw [hla] at h; cases h
  | some la =>
    cases hlo : eq.longitude with
    | none => rw [hla, hlo] at h; cases h
    | some lo =>
      rw [hla, hlo] at h
      injection h with h2
      cases h2
      exact ⟨floorCell_floorCell _ hg.ne' la, floorCell_floorCell _ hg.ne' lo,
        fun _ => rfl⟩

/-- C7 witness: the key of an event at (3.7, -1.2) with grid size 2 is
(2, -2), a fixed point of the flooring map. -/
theorem C7_cell_key_fixed_point_witness :
    floorCell 2 ((2 : ℚ), (-2 : ℚ)).1 = ((2 : ℚ), (-2 : ℚ)).1 ∧
    floorCell 2 ((2 : ℚ), (-2 : ℚ)).2 = ((2 : ℚ), (-2 : ℚ)).2 ∧
    ∀ events : List Earthquake, groupEvents 2 events = groupEvents 2 events :=
  C7_cell_key_fixed_point 2 (by norm_num) (mkEvent 3.7 (-1.2) none none "" 0)
    (2, -2) (by simp only [cellKey, mkEvent, floorCell]; norm_num)

/-- The frequency factor is non-negative. -/
theorem frequency_score_nonneg (earthquakes : List Earthquake) :
    0 ≤ frequency_score earthquakes := by
  unfold frequency_score
  have h : (0:ℚ) ≤ ((earthquakes.length : ℚ) / 12) / 10 := by positivity
  exact le_min h zero_le_one

/-- The magnitude factor is non-negative (the 1.5 boost multiplies a
floored-at-zero value). -/
theorem magnitude_score_nonneg (earthquakes : List Earthquake) :
    0 ≤ magnitude_score earthquakes := by
  simp only [magnitude_score]
  split_ifs with h1 h2
  · exact le_refl 0
  · exact mul_nonneg (le_max_right _ 0) (by norm_num)
  · exact le_max_right _ 0

/-- The recency factor is non-negative. -/
theorem recency_score_nonneg (now : ℤ) (earthquakes : List Earthquake) :
    0 ≤ recency_score now earthquakes := by
  unfold recency_score
  positivity

/-- The depth factor is non-negative. -/
theorem depth_score_nonneg (earthquakes : List Earthquake) :
    0 ≤ depth_score earthquakes := by
  simp only [depth_score]
  split_ifs with h1 h2
  · norm_num
  · exact le_max_left 0 _
  · norm_num

/-- C6: the computed risk score lies in [0, 1] for every cell of events,
including the all-absent-magnitude and all-absent-depth fallback paths
(no hypothesis restricts the events). -/
theorem C6_risk_level_in_unit_interval (now : ℤ) (earthquakes : List Earthquake) :
    0 ≤ _calculate_risk_level now earthquakes ∧
    _calculate_risk_level now earthquakes ≤ 1 := by
  unfold _calculate_risk_level
  split_ifs with h
  · norm_num
  · refine ⟨?_, min_le_right _ _⟩
    have h1 := frequency_score_nonneg earthquakes
    have h2 := magnitude_score_nonneg earthquakes
    have h3 := recency_score_nonneg now earthquakes
    have h4 := depth_score_nonneg earthquakes
    have hsum : (0:ℚ) ≤ frequency_score earthquakes * 0.3 +
        magnitude_score earthquakes * 0.4 + recency_score now earthquakes * 0.2 +
        depth_score earthquakes * 0.1 := by linarith
    exact le_min hsum zero_le_one

/-- Dropping an absent-or-zero magnitude never contributes to the kept
magnitude list. -/
theorem truthyMagnitudes_eq_nil (earthquakes : List Earthquake)
    (h : ∀ eq ∈ earthquakes, eq.magnitude = none ∨ eq.magnitude = some 0) :
    truthyMagnitudes earthquakes = [] := by
  unfold truthyMagnitudes
  rw [List.filterMap_eq_nil_iff]
  intro eq hmem
  rcases h eq hmem with h2 | h2 <;> rw [h2]
  simp

/-- C10: an event whose magnitude is exactly 0.0 is excluded by the
truthiness filter exactly as if its magnitude were absent: replacing
such a magnitude by `None` changes neither the magnitude factor nor the
final risk score, and a cell whose present magnitudes are all 0.0 takes
the no-magnitude fallback, giving magnitude factor 0. -/
theorem C10_zero_magnitude_as_absent (now : ℤ) (pre post : List Earthquake)
    (e : Earthquake) (h : e.magnitude = some 0) :
    _calculate_risk_level now (pre ++ e :: post) =
      _calculate_risk_level now (pre ++ { e with magnitude := none } :: post) ∧
    magnitude_score (pre ++ e :: post) =
      magnitude_score (pre ++ { e with magnitude := none } :: post) ∧
    ∀ eqs : List Earthquake,
      (∀ eq ∈ eqs, eq.magnitude = none ∨ eq.magnitude = some 0) →
      magnitude_score eqs = 0 := by
  have hmags : truthyMagnitudes (pre ++ e :: post) =
      truthyMagnitudes (pre ++ { e with magnitude := none } :: post) := by
    unfold truthyMagnitudes
    rw [List.filterMap_append, List.filterMap_append, List.filterMap_cons,
        List.filterMap_cons, h]
    simp
  have hmag : magnitude_score (pre ++ e :: post) =
      magnitude_score (pre ++ { e with magnitude := none } :: post) := by
    unfold magnitude_score
    rw [hmags]
  have hfreq : frequency_score (pre ++ e :: post) =
      frequency_score (pre ++ { e with magnitude := none } :: post) := by
    unfold frequency_score
    simp
  have hrec : recency_score now (pre ++ e :: post) =
      recency_score now (pre ++ { e with magnitude := none } :: post) := by
    unfold recency_score
    rw [List.filter_append, List.filter_append, List.filter_cons, List.filter_cons]
    simp only [List.length_append]
    split_ifs <;> simp
  have hdep : depth_score (pre ++ e :: post) =
      depth_score (pre ++ { e with magnitude := none } :: post) := by
    unfold depth_score presentDepths
    rw [List.filterMap_append, List.filterMap_append, List.filterMap_cons,
        List.filterMap_cons]
  refine ⟨?_, hmag, ?_⟩
  · unfold _calculate_risk_level
    rw [hmag, hfreq, hrec, hdep]
    simp
  · intro eqs heqs
    unfold magnitude_score
    rw [truthyMagnitudes_eq_nil eqs heqs]
    simp

/-- C10 witness at a concrete input: in a two-event cell, turning a 0.0
magnitude into an absent one leaves the risk score unchanged. -/
theorem C10_zero_magnitude_as_absent_witness :
    _calculate_risk_level 1000
        ([mkEvent 1 1 (some 7) (some 70) "A" 800] ++
          mkEvent 1 1 (some 0) (some 70) "A" 800 :: []) =
      _calculate_risk_level 1000
        ([mkEvent 1 1 (some 7) (some 70) "A" 800] ++
          { mkEvent 1 1 (some 0) (some 70) "A" 800 with magnitude := none } :: []) :=
  (C10_zero_magnitude_as_absent 1000 [mkEvent 1 1 (some 7) (some 70) "A" 800] []
    (mkEvent 1 1 (some 0) (some 70) "A" 800) rfl).1

/-- C5: for a cell of the partition, a zone is built if and only if the
cell has at least 3 events and its risk score is strictly above 0.3
(in particular a 2-event cell never produces a zone and a 3-event cell
is eligible), and every built zone lands in the run's appended zone
list, centred in its cell and carrying the cell's event count. -/
theorem C5_zone_emission (grid_size : ℚ) (now : ℤ)
    (cells : List ((ℚ × ℚ) × List Earthquake))
    (cell : (ℚ × ℚ) × List Earthquake) (hmem : cell ∈ cells) :
    ((zoneOfCell grid_size now cell).isSome ↔
       3 ≤ cell.2.length ∧ 0.3 < _calculate_risk_level now cell.2) ∧
    (cell.2.length = 2 → zoneOfCell grid_size now cell = none) ∧
    (∀ z, zoneOfCell grid_size now cell = some z →
       z ∈ zonesFor grid_size now cells ∧
       z.latitude = cell.1.1 + grid_size / 2 ∧
       z.longitude = cell.1.2 + grid_size / 2 ∧
       z.earthquake_count = cell.2.length) := by
  refine ⟨?_, ?_, ?_⟩
  · unfold zoneOfCell
    split_ifs with h1 h2
    · simp only [Option.isSome_none, Bool.false_eq_true, false_iff]
      intro hc
      exact absurd hc.1 (by omega)
    · simp only [Option.isSome_some, true_iff]
      exact ⟨by omega, h2⟩
    · simp only [Option.isSome_none, Bool.false_eq_true, false_iff]
      intro hc
      exact h2 hc.2
  · intro h2
    unfold zoneOfCell
    rw [if_pos (by omega)]
  · intro z hz
    refine ⟨List.mem_filterMap.mpr ⟨cell, hmem, hz⟩, ?_, ?_, ?_⟩ <;>
      · unfold zoneOfCell at hz
        split_ifs at hz
        injection hz with hz2
        rw [← hz2]

/-- A concrete 3-event cell used by witnesses: recent magnitude-6.5
events at shallow depth. -/
def cellEvents : List Earthquake :=
  [mkEvent 0.5 0.5 (some 6.5) (some 10) "A" 995,
   mkEvent 0.6 0.6 (some 6.5) (some 10) "A" 996,
   mkEvent 0.7 0.7 (some 6.5) (some 10) "A" 997]

/-- C5 witness at a concrete input: the 3-event high-risk cell passes
both gates and produces a zone. -/
theorem C5_zone_emission_witness :
    (zoneOfCell 2 1000 ((0, 0), cellEvents)).isSome = true :=
  (C5_zone_emission 2 1000 [((0, 0), cellEvents)] ((0, 0), cellEvents)
      (List.mem_singleton.mpr rfl)).1.mpr
    ⟨by simp [cellEvents], by
      norm_num [_calculate_risk_level, frequency_score, magnitude_score,
        truthyMagnitudes, pyMax, recency_score, depth_score, presentDepths,
        cellEvents, mkEvent, List.filterMap_cons, List.filter_cons,
        List.sum_cons, List.sum_nil, List.foldl]
      split_ifs <;> simp_all [lt_min_iff]
      norm_num⟩

/-- Clamp into [0,1] (the claim's "clamp ... to [0,1]"). -/
def clamp01 (x : ℚ) : ℚ := min (max x 0) 1

/-- Modelled from the claim C4 wording: the magnitudes of the events
that have a magnitude, reading "has a magnitude" as the value being
present — so a present 0.0 magnitude is included. -/
def claim_present_magnitudes (earthquakes : List Earthquake) : List ℚ :=
  earthquakes.filterMap fun eq => eq.magnitude

/-- The magnitude factor as worded in claim C4: clamp of the linear map
of the mean present magnitude, boosted by 1.5 when the maximum present
magnitude is at least 6, and 0.0 when no event has a magnitude. -/
def claim_magnitude_factor (earthquakes : List Earthquake) : ℚ :=
  let mags := claim_present_magnitudes earthquakes
  if mags = [] then 0
  else
    let mean := mags.sum / (mags.length : ℚ)
    let base := clamp01 ((mean - 2) / 6)
    if 6 ≤ pyMax mags then base * 1.5 else base

/-- The frequency factor as worded in claim C4. -/
def claim_frequency_factor (earthquakes : List Earthquake) : ℚ :=
  min (((earthquakes.length : ℚ) / 12) / 10) 1

/-- The recency factor as worded in claim C4: the fraction of the
cell's events within 90 days of now. -/
def claim_recency_factor (now : ℤ) (earthquakes : List Earthquake) : ℚ :=
  ((earthquakes.countP fun eq => decide (now - eq.timestamp ≤ 90)) : ℚ) /
    (earthquakes.length : ℚ)

/-- The depth factor as worded in claim C4. -/
def claim_depth_factor (earthquakes : List Earthquake) : ℚ :=
  let depths := earthquakes.filterMap fun eq => eq.depth
  if depths = [] then 1/2
  else
    let mean := depths.sum / (depths.length : ℚ)
    if 0 < mean then max 0 ((70 - mean) / 70) else 1/2

/-- The risk score exactly as claim C4 words it. -/
def claim_risk_formula (now : ℤ) (earthquakes : List Earthquake) : ℚ :=
  min (0.3 * claim_frequency_factor earthquakes +
       0.4 * claim_magnitude_factor earthquakes +
       0.2 * claim_recency_factor now earthquakes +
       0.1 * claim_depth_factor earthquakes) 1

/-- The magnitude factor of the amended claim: identical to the claim's
wording except that the mean and maximum range over magnitudes that are
present and non-zero (0.0 excluded by Python truthiness). -/
def amended_magnitude_factor (earthquakes : List Earthquake) : ℚ :=
  let mags := (earthquakes.filterMap fun eq => eq.magnitude).filter
    fun m => decide (m ≠ 0)
  if mags = [] then 0
  else
    let mean := mags.sum / (mags.length : ℚ)
    let base := clamp01 ((mean - 2) / 6)
    if 6 ≤ pyMax mags then base * 1.5 else base

/-- C4: counterexample.  In a two-event cell with magnitudes 0.0 and
7.0, the claim's formula (mean over events that have a magnitude) gives
31/200, but the code drops the 0.0 magnitude by truthiness and returns
101/200. -/
theorem C4_formula_counterexample :
    claim_risk_formula 1000
        [mkEvent 1 1 (some 0) (some 70) "A" 800,
         mkEvent 1 1 (some 7) (some 70) "A" 800] = 31/200 ∧
    _calculate_risk_level 1000
        [mkEvent 1 1 (some 0) (some 70) "A" 800,
         mkEvent 1 1 (some 7) (some 70) "A" 800] = 101/200 ∧
    ((31 : ℚ)/200) ≠ 101/200 := by
  refine ⟨?_, ?_, by norm_num⟩ <;>
    · norm_num [claim_risk_formula, claim_frequency_factor, claim_magnitude_factor,
        claim_present_magnitudes, claim_recency_factor, claim_depth_factor, clamp01,
        _calculate_risk_level, frequency_score, magnitude_score, truthyMagnitudes,
        pyMax, recency_score, depth_score, presentDepths, mkEvent,
        List.filterMap_cons, List.filter_cons, List.sum_cons, List.sum_nil,
        List.foldl, List.countP_cons]
      split_ifs <;> simp_all [min_def, max_def] <;> norm_num

/-- Keeping the present magnitudes and then dropping the zero ones is
the code's truthiness filter. -/
theorem truthyMagnitudes_eq_filter (earthquakes : List Earthquake) :
    (earthquakes.filterMap fun eq => eq.magnitude).filter
        (fun m => decide (m ≠ 0)) = truthyMagnitudes earthquakes := by
  induction earthquakes with
  | nil => rfl
  | cons e rest ih =>
    simp only [truthyMagnitudes, List.filterMap_cons] at ih ⊢
    cases hm : e.magnitude with
    | none => simpa using ih
    | some m =>
      by_cases h0 : m = 0
      · simpa [h0, List.filter_cons] using ih
      · simpa [h0, List.filter_cons] using ih

/-- Flooring at 0 after capping at 1 is the same as clamping into
[0,1]. -/
theorem max_min_eq_clamp01 (x : ℚ) : max (min x 1) 0 = clamp01 x := by
  simp only [clamp01, max_def, min_def]
  split_ifs <;> linarith

/-- The code's magnitude factor is the amended claim's magnitude
factor. -/
theorem magnitude_score_eq_amended (earthquakes : List Earthquake) :
    magnitude_score earthquakes = amended_magnitude_factor earthquakes := by
  simp only [magnitude_score, amended_magnitude_factor, truthyMagnitudes_eq_filter,
    max_min_eq_clamp01]

/-- C4 (amended): for every non-empty cell the code's risk score equals
the claim's weighted-sum formula with the magnitude factor taken over
present non-zero magnitudes (0.0 treated as absent), all other factors
exactly as the claim words them. -/
theorem C4_amended_weighted_sum (now : ℤ) (earthquakes : List Earthquake)
    (h : earthquakes ≠ []) :
    _calculate_risk_level now earthquakes =
      min (0.3 * claim_frequency_factor earthquakes +
           0.4 * amended_magnitude_factor earthquakes +
           0.2 * claim_recency_factor now earthquakes +
           0.1 * claim_depth_factor earthquakes) 1 := by
  have hf : frequency_score earthquakes = claim_frequency_factor earthquakes := rfl
  have hr : recency_score now earthquakes = claim_recency_factor now earthquakes := by
    unfold recency_score claim_recency_factor
    rw [List.countP_eq_length_filter]
  have hd : depth_score earthquakes = claim_depth_factor earthquakes := rfl
  unfold _calculate_risk_level
  rw [if_neg h, magnitude_score_eq_amended, hf, hr, hd]
  congr 1
  ring

/-- C4 (amended) witness at a concrete non-empty cell. -/
theorem C4_amended_weighted_sum_witness :
    _calculate_risk_level 1000 cellEvents =
      min (0.3 * claim_frequency_factor cellEvents +
           0.4 * amended_magnitude_factor cellEvents +
           0.2 * claim_recency_factor 1000 cellEvents +
           0.1 * claim_depth_factor cellEvents) 1 :=
  C4_amended_weighted_sum 1000 cellEvents (by simp [cellEvents])

/-- The events matching a point-and-radius query. -/
def matchingEvents (latitude longitude radius_km : ℚ) (events : List Earthquake) :
    List Earthquake :=
  events.filter (matchesQuery latitude longitude (radius_km / 111))

/-- Five matching events, all far outside the 30-day recency window. -/
def fiveOldEvents : List Earthquake :=
  [mkEvent 0 0 (some 5) (some 10) "A" 100,
   mkEvent 0 0 (some 5) (some 10) "A" 101,
   mkEvent 0 0 (some 5) (some 10) "A" 102,
   mkEvent 0 0 (some 5) (some 10) "A" 103,
   mkEvent 0 0 (some 5) (some 10) "A" 104]

/-- C9: counterexample.  With exactly 5 matching events and none in the
last 30 days, the claim's formula gives 5/365 + 0·0.1 = 1/73, but the
code rounds to three decimals and returns 0.014 = 7/500. -/
theorem C9_rounding_counterexample :
    (predict_next_earthquake_probability 1000 0 0 100 fiveOldEvents).based_on_events = 5 ∧
    (predict_next_earthquake_probability 1000 0 0 100 fiveOldEvents).probability = 7/500 ∧
    min ((5 : ℚ)/365 + 0 * 0.1) 1 = 1/73 ∧
    ((7 : ℚ)/500) ≠ 1/73 := by
  refine ⟨?_, ?_, by norm_num [min_def], by norm_num⟩ <;>
    · norm_num [predict_next_earthquake_probability, matchesQuery, fiveOldEvents,
        mkEvent, roundTo3, roundHalfEven, List.filter_cons, min_def]

/-- C9 (amended): fewer than 5 matching events always yields probability
0.1 with confidence "low"; otherwise the probability is the historical
frequency per day plus 0.1 per matching event in the last 30 days,
capped at 1.0 and then rounded to three decimal places (Python `round`,
ties to even), with the confidence label determined by the matching
count against the 20/50 thresholds. -/
theorem C9_amended_probability_estimate (now : ℤ)
    (latitude longitude radius_km : ℚ) (events : List Earthquake) :
    ((matchingEvents latitude longitude radius_km events).length < 5 →
      predict_next_earthquake_probability now latitude longitude radius_km events =
        { probability := 0.1, confidence := "low",
          based_on_events := (matchingEvents latitude longitude radius_km events).length }) ∧
    (5 ≤ (matchingEvents latitude longitude radius_km events).length →
      (predict_next_earthquake_probability now latitude longitude radius_km events).probability =
        roundTo3 (min
          (((matchingEvents latitude longitude radius_km events).length : ℚ) / 365 +
            ((matchingEvents latitude longitude radius_km events).countP
              (fun eq => decide (now - eq.timestamp ≤ 30)) : ℚ) * 0.1) 1) ∧
      (predict_next_earthquake_probability now latitude longitude radius_km events).confidence =
        (if 50 < (matchingEvents latitude longitude radius_km events).length then "high"
         else if 20 < (matchingEvents latitude longitude radius_km events).length then "medium"
         else "low") ∧
      (predict_next_earthquake_probability now latitude longitude radius_km events).based_on_events =
        (matchingEvents latitude longitude radius_km events).length) := by
  constructor
  · intro h5
    unfold matchingEvents at h5
    simp only [predict_next_earthquake_probability]
    rw [if_pos h5]
    rfl
  · intro h5
    unfold matchingEvents at h5 ⊢
    simp only [predict_next_earthquake_probability]
    rw [if_neg (not_lt.mpr h5)]
    refine ⟨?_, rfl, rfl⟩
    rw [List.countP_eq_length_filter]

/-- C9 (amended) witness at a concrete input: one matching event falls
under the minimum-5 rule and yields the fixed low-confidence result. -/
theorem C9_amended_probability_estimate_witness :
    predict_next_earthquake_probability 1000 0 0 100
        [mkEvent 0 0 (some 5) (some 10) "A" 100] =
      { probability := 0.1, confidence := "low", based_on_events := 1 } := by
  have h := (C9_amended_probability_estimate 1000 0 0 100
    [mkEvent 0 0 (some 5) (some 10) "A" 100]).1
  rw [show (matchingEvents 0 0 100 [mkEvent 0 0 (some 5) (some 10) "A" 100]).length = 1
    from by norm_num [matchingEvents, matchesQuery, mkEvent, List.filter_cons]] at h
  exact h (by norm_num)

/-- Number of events in the cell carrying region label `r`. -/
def regionCount (r : String) (earthquakes : List Earthquake) : ℕ :=
  earthquakes.countP fun eq => decide (eq.region = r)

/-- Index of the first event carrying region label `r` (length of the
list when there is none). -/
def firstRegionIdx (r : String) : List Earthquake → ℕ
  | [] => 0
  | eq :: rest => if eq.region = r then 0 else firstRegionIdx r rest + 1

/-- One step of the region-count fold. -/
theorem regionCounts_append_singleton (earthquakes : List Earthquake) (e : Earthquake) :
    regionCounts (earthquakes ++ [e]) =
      if e.region = "" then regionCounts earthquakes
      else bumpRegion e.region (regionCounts earthquakes) := by
  unfold regionCounts
  rw [List.foldl_append]
  rfl

/-- Bumping an already present key keeps the key list. -/
theorem bumpRegion_map_fst_mem (r : String) (acc : List (String × ℕ))
    (h : r ∈ acc.map Prod.fst) :
    (bumpRegion r acc).map Prod.fst = acc.map Prod.fst := by
  induction acc with
  | nil => cases h
  | cons p rest ih =>
    obtain ⟨r2, c⟩ := p
    by_cases hp : r2 = r
    · simp [bumpRegion, hp]
    · have h2 : r ∈ rest.map Prod.fst := by
        rcases List.mem_map.mp h with ⟨q, hq, hqr⟩
        rcases List.mem_cons.mp hq with rfl | hq2
        · exact absurd hqr hp
        · exact List.mem_map.mpr ⟨q, hq2, hqr⟩
      simp [bumpRegion, hp, ih h2]

/-- Bumping a new key appends it to the key list. -/
theorem bumpRegion_map_fst_not_mem (r : String) (acc : List (String × ℕ))
    (h : r ∉ acc.map Prod.fst) :
    (bumpRegion r acc).map Prod.fst = acc.map Prod.fst ++ [r] := by
  induction acc with
  | nil => rfl
  | cons p rest ih =>
    obtain ⟨r2, c⟩ := p
    have hp : r2 ≠ r := by
      intro hcontra
      exact h (List.mem_map.mpr ⟨(r2, c), List.mem_cons_self _ _, hcontra⟩)
    have h2 : r ∉ rest.map Prod.fst := by
      intro hcontra
      rcases List.mem_map.mp hcontra with ⟨q, hq, hqr⟩
      exact h (List.mem_map.mpr ⟨q, List.mem_cons_of_mem _ hq, hqr⟩)
    simp [bumpRegion, hp, ih h2]

/-- Where an entry of a bumped association list comes from (keys assumed
distinct). -/
theorem mem_bumpRegion (r : String) (acc : List (String × ℕ))
    (hnd : (acc.map Prod.fst).Nodup) (p : String × ℕ)
    (hmem : p ∈ bumpRegion r acc) :
    (p ∈ acc ∧ p.1 ≠ r) ∨ (∃ c, p = (r, c + 1) ∧ (r, c) ∈ acc) ∨
      (p = (r, 1) ∧ r ∉ acc.map Prod.fst) := by
  induction acc with
  | nil =>
    right; right
    refine ⟨?_, by simp⟩
    simpa [bumpRegion] using hmem
  | cons q rest ih =>
    obtain ⟨r2, c⟩ := q
    simp only [List.map_cons, List.nodup_cons] at hnd
    by_cases hq : r2 = r
    · subst hq
      simp only [bumpRegion, if_pos rfl] at hmem
      rcases List.mem_cons.mp hmem with rfl | hmem2
      · exact Or.inr (Or.inl ⟨c, rfl, List.mem_cons_self _ _⟩)
      · refine Or.inl ⟨List.mem_cons_of_mem _ hmem2, ?_⟩
        intro hcontra
        exact hnd.1 (List.mem_map.mpr ⟨p, hmem2, hcontra⟩)
    · simp only [bumpRegion, if_neg hq] at hmem
      rcases List.mem_cons.mp hmem with rfl | hmem2
      · exact Or.inl ⟨List.mem_cons_self _ _, hq⟩
      · rcases ih hnd.2 hmem2 with ⟨hin, hne⟩ | ⟨c2, hpc, hin⟩ | ⟨hpr, hnotin⟩
        · exact Or.inl ⟨List.mem_cons_of_mem _ hin, hne⟩
        · exact Or.inr (Or.inl ⟨c2, hpc, List.mem_cons_of_mem _ hin⟩)
        · refine Or.inr (Or.inr ⟨hpr, ?_⟩)
          simp only [List.map_cons, List.mem_cons]
          rintro (hcontra | hcontra)
          · exact hq hcontra.symm
          · exact hnotin hcontra

/-- `firstRegionIdx` ignores a suffix once the label occurs. -/
theorem firstRegionIdx_append_of_mem (r : String) (l1 l2 : List Earthquake)
    (h : ∃ eq ∈ l1, eq.region = r) :
    firstRegionIdx r (l1 ++ l2) = firstRegionIdx r l1 := by
  induction l1 with
  | nil => simp at h
  | cons e rest ih =>
    by_cases he : e.region = r
    · simp [firstRegionIdx, he]
    · have h2 : ∃ eq ∈ rest, eq.region = r := by
        rcases h with ⟨eq, hmem, hr⟩
        rcases List.mem_cons.mp hmem with rfl | hmem2
        · exact absurd hr he
        · exact ⟨eq, hmem2, hr⟩
      simp [firstRegionIdx, he, ih h2]

/-- `firstRegionIdx` walks past a prefix free of the label. -/
theorem firstRegionIdx_append_of_not_mem (r : String) (l1 l2 : List Earthquake)
    (h : ∀ eq ∈ l1, eq.region ≠ r) :
    firstRegionIdx r (l1 ++ l2) = l1.length + firstRegionIdx r l2 := by
  induction l1 with
  | nil => simp
  | cons e rest ih =>
    have he : e.region ≠ r := h e (List.mem_cons_self _ _)
    have h2 : ∀ eq ∈ rest, eq.region ≠ r := fun eq hm => h eq (List.mem_cons_of_mem _ hm)
    simp [firstRegionIdx, he, ih h2]
    omega

/-- A label that occurs has its first index inside the list. -/
theorem firstRegionIdx_lt_length (r : String) (l : List Earthquake)
    (h : ∃ eq ∈ l, eq.region = r) :
    firstRegionIdx r l < l.length := by
  induction l with
  | nil => simp at h
  | cons e rest ih =>
    by_cases he : e.region = r
    · simp [firstRegionIdx, he]
    · have h2 : ∃ eq ∈ rest, eq.region = r := by
        rcases h with ⟨eq, hmem, hr⟩
        rcases List.mem_cons.mp hmem with rfl | hmem2
        · exact absurd hr he
        · exact ⟨eq, hmem2, hr⟩
      simp only [firstRegionIdx, if_neg he, List.length_cons]
      exact Nat.succ_lt_succ (ih h2)

/-- The combined invariant of the `region_counts` dictionary: entries
are non-empty labels with their exact occurrence counts, keys are
distinct, keys are exactly the non-empty labels that occur, and keys
are listed in order of first occurrence. -/
theorem regionCounts_invariant (eqs : List Earthquake) :
    (∀ p ∈ regionCounts eqs, p.1 ≠ "" ∧ p.2 = regionCount p.1 eqs) ∧
    ((regionCounts eqs).map Prod.fst).Nodup ∧
    (∀ r : String, r ∈ (regionCounts eqs).map Prod.fst ↔
       (r ≠ "" ∧ ∃ eq ∈ eqs, eq.region = r)) ∧
    List.Pairwise (fun r1 r2 => firstRegionIdx r1 eqs < firstRegionIdx r2 eqs)
      ((regionCounts eqs).map Prod.fst) := by
  induction eqs using List.reverseRecOn with
  | nil => simp [regionCounts]
  | append_singleton l e ih =>
    obtain ⟨ihC, ihN, ihD, ihP⟩ := ih
    rw [regionCounts_append_singleton]
    by_cases he : e.region = ""
    · rw [if_pos he]
      refine ⟨?_, ihN, ?_, ?_⟩
      · intro p hp
        obtain ⟨hne, hc⟩ := ihC p hp
        refine ⟨hne, ?_⟩
        unfold regionCount at hc ⊢
        rw [List.countP_append, List.countP_cons]
        have : ¬ (e.region = p.1) := by rw [he]; exact fun h2 => hne h2.symm
        simp [this, hc]
      · intro r
        rw [ihD r]
        constructor
        · rintro ⟨hr, eq, hmem, hreq⟩
          exact ⟨hr, eq, List.mem_append_left _ hmem, hreq⟩
        · rintro ⟨hr, eq, hmem, hreq⟩
          refine ⟨hr, ?_⟩
          rcases List.mem_append.mp hmem with hmem2 | hmem2
          · exact ⟨eq, hmem2, hreq⟩
          · rw [List.mem_singleton.mp hmem2] at hreq
            rw [he] at hreq
            exact absurd hreq.symm hr
      · refine ihP.imp_of_mem ?_
        intro a b ha hb hab
        have hocca : ∃ eq ∈ l, eq.region = a := ((ihD a).mp ha).2
        have hoccb : ∃ eq ∈ l, eq.region = b := ((ihD b).mp hb).2
        rw [firstRegionIdx_append_of_mem a l [e] hocca,
            firstRegionIdx_append_of_mem b l [e] hoccb]
        exact hab
    · rw [if_neg he]
      by_cases hin : e.region ∈ (regionCounts l).map Prod.fst
      · have hkeys := bumpRegion_map_fst_mem e.region (regionCounts l) hin
        refine ⟨?_, hkeys ▸ ihN, ?_, ?_⟩
        · intro p hp
          rcases mem_bumpRegion e.region (regionCounts l) ihN p hp with
            ⟨hmem, hne⟩ | ⟨c, rfl, hmem⟩ | ⟨hpr, hnotin⟩
          · obtain ⟨hne2, hc⟩ := ihC p hmem
            refine ⟨hne2, ?_⟩
            unfold regionCount at hc ⊢
            rw [List.countP_append, List.countP_cons]
            have : ¬ (e.region = p.1) := fun h2 => hne h2.symm
            simp [this, hc]
          · obtain ⟨hne2, hc⟩ := ihC _ hmem
            refine ⟨hne2, ?_⟩
            unfold regionCount at hc ⊢
            simp only at hc ⊢
            rw [List.countP_append, List.countP_cons]
            simp [← hc]
          · exact absurd hin hnotin
        · intro r
          rw [hkeys, ihD r]
          constructor
          · rintro ⟨hr, eq, hmem, hreq⟩
            exact ⟨hr, eq, List.mem_append_left _ hmem, hreq⟩
          · rintro ⟨hr, eq, hmem, hreq⟩
            refine ⟨hr, ?_⟩
            rcases List.mem_append.mp hmem with hmem2 | hmem2
            · exact ⟨eq, hmem2, hreq⟩
            · have heq2 : eq = e := List.mem_singleton.mp hmem2
              rw [heq2] at hreq
              obtain ⟨eq2, hmem3, hreq3⟩ := ((ihD e.region).mp hin).2
              exact ⟨eq2, hmem3, hreq3.trans hreq⟩
        · rw [hkeys]
          refine ihP.imp_of_mem ?_
          intro a b ha hb hab
          have hocca : ∃ eq ∈ l, eq.region = a := ((ihD a).mp ha).2
          have hoccb : ∃ eq ∈ l, eq.region = b := ((ihD b).mp hb).2
          rw [firstRegionIdx_append_of_mem a l [e] hocca,
              firstRegionIdx_append_of_mem b l [e] hoccb]
          exact hab
      · have hkeys := bumpRegion_map_fst_not_mem e.region (regionCounts l) hin
        have hnoocc : ∀ eq ∈ l, eq.region ≠ e.region := by
          intro eq hmem hcontra
          exact hin ((ihD e.region).mpr ⟨he, eq, hmem, hcontra⟩)
        have hcount0 : regionCount e.region l = 0 := by
          unfold regionCount
          rw [List.countP_eq_zero]
          intro eq hmem
          simp only [decide_eq_true_eq]
          exact hnoocc eq hmem
        refine ⟨?_, ?_, ?_, ?_⟩
        · intro p hp
          rcases mem_bumpRegion e.region (regionCounts l) ihN p hp with
            ⟨hmem, hne⟩ | ⟨c, rfl, hmem⟩ | ⟨hpr, hnotin⟩
          · obtain ⟨hne2, hc⟩ := ihC p hmem
            refine ⟨hne2, ?_⟩
            unfold regionCount at hc ⊢
            rw [List.countP_append, List.countP_cons]
            have : ¬ (e.region = p.1) := fun h2 => hne h2.symm
            simp [this, hc]
          · exact absurd (List.mem_map.mpr ⟨_, hmem, rfl⟩) hin
          · subst hpr
            refine ⟨he, ?_⟩
            unfold regionCount at hcount0 ⊢
            rw [List.countP_append, hcount0, List.countP_cons]
            simp
        · rw [hkeys, List.nodup_append]
          exact ⟨ihN, List.nodup_singleton _,
            fun a ha hb => hin (List.mem_singleton.mp hb ▸ ha)⟩
        · intro r
          rw [hkeys]
          simp only [List.mem_append, List.mem_singleton]
          constructor
          · rintro (hr | rfl)
            · obtain ⟨hne2, eq, hmem, hreq⟩ := (ihD r).mp hr
              exact ⟨hne2, eq, Or.inl hmem, hreq⟩
            · exact ⟨he, e, Or.inr rfl, rfl⟩
          · rintro ⟨hr, eq, hmem | rfl, hreq⟩
            · exact Or.inl ((ihD r).mpr ⟨hr, eq, hmem, hreq⟩)
            · exact Or.inr hreq.symm
        · rw [hkeys]
          rw [List.pairwise_append]
          have hidx : firstRegionIdx e.region (l ++ [e]) = l.length := by
            rw [firstRegionIdx_append_of_not_mem e.region l [e] hnoocc]
            simp [firstRegionIdx]
          refine ⟨?_, by simp, ?_⟩
          · refine ihP.imp_of_mem ?_
            intro a b ha hb hab
            have hocca : ∃ eq ∈ l, eq.region = a := ((ihD a).mp ha).2
            have hoccb : ∃ eq ∈ l, eq.region = b := ((ihD b).mp hb).2
            rw [firstRegionIdx_append_of_mem a l [e] hocca,
                firstRegionIdx_append_of_mem b l [e] hoccb]
            exact hab
          · intro a ha b hb
            rw [List.mem_singleton.mp hb]
            have hocca : ∃ eq ∈ l, eq.region = a := ((ihD a).mp ha).2
            rw [firstRegionIdx_append_of_mem a l [e] hocca, hidx]
            exact firstRegionIdx_lt_length a l hocca

/-- Characterisation of Python's `max(..., key=...)` fold: the result
splits the list into a strict-below prefix, the result itself, and an
at-most-equal suffix — i.e. it is the first maximum. -/
theorem firstMaxByCount_split (p : String × ℕ) (rest : List (String × ℕ)) :
    ∃ l1 l2, p :: rest = l1 ++ firstMaxByCount p rest :: l2 ∧
      (∀ q ∈ l1, q.2 < (firstMaxByCount p rest).2) ∧
      (∀ q ∈ l2, q.2 ≤ (firstMaxByCount p rest).2) := by
  induction rest generalizing p with
  | nil => exact ⟨[], [], rfl, by simp, by simp⟩
  | cons q rest2 ih =>
    have hstep : firstMaxByCount p (q :: rest2) =
        firstMaxByCount (if p.2 < q.2 then q else p) rest2 := rfl
    by_cases hpq : p.2 < q.2
    · rw [hstep, if_pos hpq]
      obtain ⟨l1, l2, hsplit, hl1, hl2⟩ := ih q
      have hqle : q.2 ≤ (firstMaxByCount q rest2).2 := by
        cases l1 with
        | nil =>
          have hq : q = firstMaxByCount q rest2 := by
            rw [List.nil_append] at hsplit
            exact (List.cons.injEq .. ▸ hsplit).1
          rw [← hq]
        | cons a t =>
          have ha : a = q := by
            rw [List.cons_append] at hsplit
            exact ((List.cons.injEq .. ▸ hsplit).1).symm
          have : q ∈ a :: t := ha ▸ List.mem_cons_self a t
          exact (hl1 q this).le
      refine ⟨p :: l1, l2, by rw [List.cons_append, ← hsplit], ?_, hl2⟩
      intro x hx
      rcases List.mem_cons.mp hx with rfl | hx2
      · exact lt_of_lt_of_le hpq hqle
      · exact hl1 x hx2
    · rw [hstep, if_neg hpq]
      have hqp : q.2 ≤ p.2 := Nat.le_of_not_lt hpq
      obtain ⟨l1, l2, hsplit, hl1, hl2⟩ := ih p
      cases l1 with
      | nil =>
        rw [List.nil_append] at hsplit
        have hp : p = firstMaxByCount p rest2 := (List.cons.injEq .. ▸ hsplit).1
        have hrest : rest2 = l2 := (List.cons.injEq .. ▸ hsplit).2
        refine ⟨[], q :: l2, ?_, by simp, ?_⟩
        · rw [List.nil_append, ← hp, hrest]
        · intro x hx
          rcases List.mem_cons.mp hx with rfl | hx2
          · exact le_trans hqp (le_of_eq (congrArg Prod.snd hp))
          · exact hl2 x hx2
      | cons a t =>
        rw [List.cons_append] at hsplit
        have ha : a = p := ((List.cons.injEq .. ▸ hsplit).1).symm
        have hrest : rest2 = t ++ firstMaxByCount p rest2 :: l2 :=
          (List.cons.injEq .. ▸ hsplit).2
        have hpmem : p ∈ a :: t := ha ▸ List.mem_cons_self a t
        have hplt : p.2 < (firstMaxByCount p rest2).2 := hl1 p hpmem
        refine ⟨p :: q :: t, l2, ?_, ?_, hl2⟩
        · rw [List.cons_append, List.cons_append]
          exact congrArg (fun x => p :: q :: x) hrest
        · intro x hx
          rcases List.mem_cons.mp hx with rfl | hx2
          · exact hplt
          · rcases List.mem_cons.mp hx2 with rfl | hx3
            · exact lt_of_le_of_lt hqp hplt
            · exact hl1 x (List.mem_cons_of_mem _ hx3)

/-- The fold result is an element of the list. -/
theorem firstMaxByCount_mem (p : String × ℕ) (rest : List (String × ℕ)) :
    firstMaxByCount p rest ∈ p :: rest := by
  obtain ⟨l1, l2, hsplit, h1, h2⟩ := firstMaxByCount_split p rest
  rw [hsplit]
  exact List.mem_append.mpr (Or.inr (List.mem_cons_self _ _))

/-- The fold result has a maximal count. -/
theorem firstMaxByCount_le (p : String × ℕ) (rest : List (String × ℕ)) :
    ∀ q ∈ p :: rest, q.2 ≤ (firstMaxByCount p rest).2 := by
  obtain ⟨l1, l2, hsplit, h1, h2⟩ := firstMaxByCount_split p rest
  intro q hq
  rw [hsplit] at hq
  rcases List.mem_append.mp hq with h | h
  · exact (h1 q h).le
  · rcases List.mem_cons.mp h with rfl | h3
    · exact le_refl _
    · exact h2 q h3

/-- C8: the representative region label is the most frequent non-empty
region among the cell's events; ties go to the label whose first
occurrence in the cell is earliest (the first-encountered maximum of
the insertion-ordered grouping); with no non-empty region the label is
"Unknown Region"; and regions ["A","A","B"] yield "A". -/
theorem C8_representative_region (earthquakes : List Earthquake) :
    ((∀ eq ∈ earthquakes, eq.region = "") →
       _get_representative_region earthquakes = "Unknown Region") ∧
    ((∃ eq ∈ earthquakes, eq.region ≠ "") →
       _get_representative_region earthquakes ≠ "" ∧
       (∃ eq ∈ earthquakes, eq.region = _get_representative_region earthquakes) ∧
       (∀ r, r ≠ "" →
          regionCount r earthquakes ≤
            regionCount (_get_representative_region earthquakes) earthquakes) ∧
       (∀ r, r ≠ "" → (∃ eq ∈ earthquakes, eq.region = r) →
          regionCount r earthquakes =
            regionCount (_get_representative_region earthquakes) earthquakes →
          firstRegionIdx (_get_representative_region earthquakes) earthquakes ≤
            firstRegionIdx r earthquakes)) ∧
    _get_representative_region
      [mkEvent 0 0 none none "A" 0, mkEvent 0 0 none none "A" 0,
       mkEvent 0 0 none none "B" 0] = "A" := by
  obtain ⟨invC, invN, invD, invP⟩ := regionCounts_invariant earthquakes
  refine ⟨?_, ?_, ?_⟩
  · intro hall
    cases hrc : regionCounts earthquakes with
    | nil => simp [_get_representative_region, hrc]
    | cons p rest =>
      exfalso
      have hkey : p.1 ∈ (regionCounts earthquakes).map Prod.fst :=
        List.mem_map.mpr ⟨p, by rw [hrc]; exact List.mem_cons_self _ _, rfl⟩
      obtain ⟨hne, eq, hmem, hreq⟩ := (invD p.1).mp hkey
      exact hne (hreq.symm.trans (hall eq hmem))
  · intro hex
    obtain ⟨eq0, hmem0, hne0⟩ := hex
    have hkey0 : eq0.region ∈ (regionCounts earthquakes).map Prod.fst :=
      (invD eq0.region).mpr ⟨hne0, eq0, hmem0, rfl⟩
    cases hrc : regionCounts earthquakes with
    | nil => rw [hrc] at hkey0; cases hkey0
    | cons p rest =>
      rw [hrc] at invC invD invP hkey0
      have hres : _get_representative_region earthquakes =
          (firstMaxByCount p rest).1 := by
        simp [_get_representative_region, hrc]
      have hmmem : firstMaxByCount p rest ∈ p :: rest := firstMaxByCount_mem p rest
      have hmkey : (firstMaxByCount p rest).1 ∈ (p :: rest).map Prod.fst :=
        List.mem_map.mpr ⟨firstMaxByCount p rest, hmmem, rfl⟩
      obtain ⟨hmne, hmcount⟩ := invC (firstMaxByCount p rest) hmmem
      refine ⟨?_, ?_, ?_, ?_⟩
      · rw [hres]; exact hmne
      · rw [hres]; exact ((invD (firstMaxByCount p rest).1).mp hmkey).2
      · intro r hr
        rw [hres]
        by_cases hrkey : r ∈ (p :: rest).map Prod.fst
        · obtain ⟨q, hqmem, hq1⟩ := List.mem_map.mp hrkey
          obtain ⟨hqne, hqcount⟩ := invC q hqmem
          rw [← hq1, ← hqcount, ← hmcount]
          exact firstMaxByCount_le p rest q hqmem
        · have hzero : regionCount r earthquakes = 0 := by
            unfold regionCount
            rw [List.countP_eq_zero]
            intro eq hmem
            simp only [decide_eq_true_eq]
            intro hcontra
            exact hrkey ((invD r).mpr ⟨hr, eq, hmem, hcontra⟩)
          rw [hzero]
          exact Nat.zero_le _
      · intro r hr hocc hcount
        rw [hres] at hcount ⊢
        have hrkey : r ∈ (p :: rest).map Prod.fst := (invD r).mpr ⟨hr, hocc⟩
        obtain ⟨q, hqmem, hq1⟩ := List.mem_map.mp hrkey
        obtain ⟨hqne, hqcount⟩ := invC q hqmem
        have hq2 : q.2 = (firstMaxByCount p rest).2 := by
          rw [hqcount, hq1, hcount, ← hmcount]
        obtain ⟨l1, l2, hsplit, hlt, hle⟩ := firstMaxByCount_split p rest
        have hqmem2 : q ∈ l1 ++ firstMaxByCount p rest :: l2 := by
          rw [← hsplit]; exact hqmem
        rcases List.mem_append.mp hqmem2 with hq_l1 | hq_rest
        · exact absurd hq2 (Nat.ne_of_lt (hlt q hq_l1))
        · rcases List.mem_cons.mp hq_rest with heq | hq_l2
          · rw [← hq1, heq]
          · have hPkeys := invP
            rw [hsplit, List.map_append, List.map_cons] at hPkeys
            have hsuffix := hPkeys.sublist
              (List.sublist_append_right (l1.map Prod.fst) _)
            have hforall := (List.pairwise_cons.mp hsuffix).1
            have hr_in : r ∈ l2.map Prod.fst := List.mem_map.mpr ⟨q, hq_l2, hq1⟩
            exact (hforall r hr_in).le
  · rfl

/-- C8 witness at concrete inputs: the A/A/B cell has a non-empty
representative label, and an all-empty-region cell falls back to
"Unknown Region". -/
theorem C8_representative_region_witness :
    _get_representative_region
        [mkEvent 0 0 none none "A" 0, mkEvent 0 0 none none "A" 0,
         mkEvent 0 0 none none "B" 0] ≠ "" ∧
    _get_representative_region [mkEvent 0 0 none none "" 5] = "Unknown Region" :=
  ⟨((C8_representative_region
        [mkEvent 0 0 none none "A" 0, mkEvent 0 0 none none "A" 0,
         mkEvent 0 0 none none "B" 0]).2.1
      ⟨mkEvent 0 0 none none "A" 0, by decide, by decide⟩).1,
    (C8_representative_region [mkEvent 0 0 none none "" 5]).1 (by decide)⟩
